import Mathlib

/-!
Verification of the RAGLLM document-ingestion pipeline.

This file gives a shallow embedding of the core of the repository:

* `app/vector_store.py` — the collection lifecycle manager over the external
  index (ChromaDB).  The external index is modelled as an association list
  from collection names to lists of stored documents; `Chroma(...)`
  construction is get-or-create, `add_documents` appends, and
  `client.delete_collection` removes the entry.
* `app/rag_system.py` — the ingestion coordinator and query path.  Extraction
  and segmentation results are passed in as parameters (`Option (List Doc)`),
  since text extraction is an external collaborator; `none` models an
  extraction failure, `some docs` a successful extraction+segmentation run.
* `app/enhanced_pdf_processor.py` — the document-type classifier, the
  dispatch/fallback logic, and the legal and technical segmentation
  strategies, including a faithful model of the Python regular expressions
  they use.  The langchain `RecursiveCharacterTextSplitter` is an external
  library, so size-bounded splitting is taken as an abstract function
  parameter (`split : Doc → List Doc`).

Strings are modelled as `List Char` (Python `str`); metadata dictionaries as
association lists with first-match lookup, so a Python dict-literal override
`{**a, "k": v}` is modelled by placing `a` first in the list (its entries win
on lookup, as the later dict entries do in Python).
-/

namespace RAG

/-- Convert a Lean string literal to the `List Char` text representation. -/
def s2l (s : String) : List Char := s.data

/-- The backtick character (used in code-fence patterns). -/
def btick : Char := Char.ofNat 96

/-- The newline character. -/
def nl : Char := Char.ofNat 10

/-- Python `str.isspace` / regex `\s` character class (ASCII part):
space, tab, newline, carriage return, form feed, vertical tab. -/
def isWSpy (c : Char) : Bool :=
  c == ' ' || c == Char.ofNat 9 || c == nl || c == Char.ofNat 13 ||
  c == Char.ofNat 12 || c == Char.ofNat 11

/-- Python `str.strip()`: drop whitespace from both ends. -/
def pstrip (l : List Char) : List Char :=
  ((l.dropWhile isWSpy).reverse.dropWhile isWSpy).reverse

/-- `leadEq pat l` is true when `pat` is an initial segment of `l`
(the anchored part of a regex match attempt). -/
def leadEq : List Char → List Char → Bool
  | [], _ => true
  | _ :: _, [] => false
  | a :: as, b :: bs => a == b && leadEq as bs

/-- Python substring containment `needle in hay`. -/
def containsSub (n : List Char) : List Char → Bool
  | [] => leadEq n []
  | c :: cs => leadEq n (c :: cs) || containsSub n cs

/-! ## Data model: documents and the external index

A langchain `Document` (`page_content`, `metadata`).  Metadata values are
text; lookup takes the first matching key. -/

/-- Metadata dictionary: association list with first-match lookup. -/
abbrev Meta := List (String × List Char)

/-- A langchain `Document`: page content plus metadata. -/
structure Doc where
  content : List Char
  metadata : Meta
deriving DecidableEq, Repr

/-- Python `metadata.get(key)` / `metadata[key]` lookup. -/
def lookupMeta (m : Meta) (key : String) : Option (List Char) :=
  (m.find? (fun e => e.1 == key)).map (fun e => e.2)

/-- The external index: named collections of stored documents.
`none` lookup = the collection is absent from the index. -/
abbrev Index := List (String × List Doc)

/-- Collection lookup (`chromadb` `list_collections` / `get_collection`). -/
def getColl : Index → String → Option (List Doc)
  | [], _ => none
  | (k2, docs) :: rest, k => if k2 == k then some docs else getColl rest k

/-- Get-or-create followed by adding documents: the effect of constructing
`Chroma(collection_name=k)` (which creates the collection when absent) and
then calling its `add_documents`.  With `ds = []` this is pure
get-or-create. -/
def appendColl : Index → String → List Doc → Index
  | [], k, ds => [(k, ds)]
  | (k2, old) :: rest, k, ds =>
    if k2 == k then (k2, old ++ ds) :: rest else (k2, old) :: appendColl rest k ds

/-- `client.delete_collection(k)`: the collection becomes absent. -/
def deleteColl (s : Index) (k : String) : Index :=
  s.filter (fun e => !(e.1 == k))

/-- The documents currently held by the `master` collection (empty when the
collection is absent). -/
def masterDocs (s : Index) : List Doc := (getColl s "master").getD []

/-! ## `app/vector_store.py` -/

/-- The re-tagging applied when syncing a document to the `master`
collection: `Document(page_content=..., metadata={**doc.metadata,
'source_collection': self.collection_name})`.  The new key wins on lookup,
as the dict-literal override does in Python. -/
def retag (k : String) (d : Doc) : Doc :=
  ⟨d.content, ("source_collection", s2l k) :: d.metadata⟩

/-- `VectorStore.add_documents`: add to the primary collection `k`; when
`use_master_collection` is on and `k` is not itself `master`, also add
re-tagged copies to the `master` collection. -/
def add_documents (use_master : Bool) (k : String) (ds : List Doc) (s : Index) : Index :=
  let s1 := appendColl s k ds
  if use_master && !(k == "master") then
    appendColl s1 "master" (ds.map (retag k))
  else s1

/-- `VectorStore._force_delete_collection`: delete the collection if it
exists; returns `True` whether it was present or absent. -/
def _force_delete_collection (k : String) (s : Index) : Bool × Index :=
  (true, deleteColl s k)

/-- `VectorStore.force_delete_collection`: force-delete, then recreate the
collection empty by rebuilding the `Chroma` vectorstore. -/
def force_delete_collection (k : String) (s : Index) : Bool × Index :=
  let r := _force_delete_collection k s
  if r.1 then (true, appendColl r.2 k []) else (false, r.2)

/-- `VectorStore.reset_and_add_documents`: force-delete and recreate the
collection, then add the new documents. -/
def reset_and_add_documents (use_master : Bool) (k : String) (ds : List Doc)
    (s : Index) : Bool × Index :=
  let r := force_delete_collection k s
  if r.1 then (true, add_documents use_master k ds r.2) else (false, r.2)

/-- `VectorStore.delete_all_documents`: if the collection exists, delete and
recreate it (returning `True`); if it does not exist, report `False`. -/
def delete_all_documents (k : String) (s : Index) : Bool × Index :=
  if (getColl s k).isSome then (true, appendColl (deleteColl s k) k [])
  else (false, s)

/-- `VectorStore.get_document_count`: number of stored ids, `0` when
unavailable. -/
def get_document_count (s : Index) (k : String) : Nat :=
  ((getColl s k).getD []).length

/-- `RAGSystem.get_collection_info` reads the size through a freshly
constructed `VectorStore` (whose `Chroma` constructor get-or-creates the
collection), so describing a collection first ensures it exists. -/
def describe_size (s : Index) (k : String) : Nat :=
  get_document_count (appendColl s k []) k

/-! ## `app/rag_system.py`: ingestion coordinator -/

/-- Step 3 of `process_pdf_replace_collection`: stamp provenance metadata
(`source_file`, `upload_timestamp`, `collection`) onto each document.  The
Python code sets the keys on the dict, overriding existing entries, so the
new keys are placed first (first-match lookup). -/
def stampMeta (fn ts : List Char) (k : String) (d : Doc) : Doc :=
  ⟨d.content,
   ("source_file", fn) :: ("upload_timestamp", ts) :: ("collection", s2l k) :: d.metadata⟩

/-- `RAGSystem.process_pdf_replace_collection` after the file-existence and
file-access checks: Step 1 force-deletes the old collection, Step 2 extracts
and segments (`extracted`; `none` = extraction raised, `some docs` = the
processor returned `docs`), an empty result returns `False`, otherwise the
documents are stamped, a fresh `VectorStore` recreates the collection and
the documents are added. -/
def process_pdf_replace_collection (s : Index) (k : String) (use_master : Bool)
    (fn ts : List Char) (extracted : Option (List Doc)) : Bool × Index :=
  let s1 := deleteColl s k
  match extracted with
  | none => (false, s1)
  | some docs =>
    if docs.isEmpty then (false, s1)
    else
      let stamped := docs.map (stampMeta fn ts k)
      let s2 := appendColl s1 k []
      (true, add_documents use_master k stamped s2)

/-- `RAGSystem.process_pdf` after the file checks: extract and segment; an
empty document list returns `False`, otherwise the documents are added to
the system's default vector store (collection `"default"`, no master
sync). -/
def rag_process_pdf (s : Index) (extracted : Option (List Doc)) : Bool × Index :=
  match extracted with
  | none => (false, s)
  | some docs =>
    if docs.isEmpty then (false, s)
    else (true, add_documents false "default" docs s)

/-! ## Basic lemmas about the index model -/

theorem getColl_appendColl_self (s : Index) (k : String) (ds : List Doc) :
    getColl (appendColl s k ds) k = some ((getColl s k).getD [] ++ ds) := by
  induction s with
  | nil => simp [appendColl, getColl]
  | cons e rest ih =>
    obtain ⟨k2, old⟩ := e
    by_cases h : k2 = k
    · subst h
      simp [appendColl, getColl]
    · simp only [appendColl, getColl, beq_iff_eq, if_neg h]
      exact ih

theorem getColl_appendColl_ne (s : Index) (k k2 : String) (ds : List Doc)
    (h : k2 ≠ k) : getColl (appendColl s k ds) k2 = getColl s k2 := by
  induction s with
  | nil => simp [appendColl, getColl, h, Ne.symm h]
  | cons e rest ih =>
    obtain ⟨k3, old⟩ := e
    by_cases h3 : k3 = k
    · subst h3
      simp [appendColl, getColl, Ne.symm h, h]
    · simp only [appendColl, getColl, beq_iff_eq, if_neg h3]
      by_cases h4 : k3 = k2
      · simp [h4]
      · simp only [if_neg h4]
        exact ih

theorem getColl_deleteColl_self (s : Index) (k : String) :
    getColl (deleteColl s k) k = none := by
  induction s with
  | nil => simp [deleteColl, getColl]
  | cons e rest ih =>
    obtain ⟨k2, old⟩ := e
    by_cases h : k2 = k
    · subst h
      simpa [deleteColl, getColl] using ih
    · simpa [deleteColl, getColl, h] using ih

theorem getColl_deleteColl_ne (s : Index) (k k2 : String) (h : k2 ≠ k) :
    getColl (deleteColl s k) k2 = getColl s k2 := by
  induction s with
  | nil => simp [deleteColl, getColl]
  | cons e rest ih =>
    obtain ⟨k3, old⟩ := e
    by_cases h3 : k3 = k
    · subst h3
      simpa [deleteColl, getColl, Ne.symm h] using ih
    · by_cases h4 : k3 = k2
      · subst h4
        simp [deleteColl, getColl, List.filter_cons, h3]
      · simpa [deleteColl, getColl, List.filter_cons, h3, h4] using ih

theorem getColl_master_add_documents_true (k : String) (ds : List Doc) (s : Index)
    (hk : k ≠ "master") :
    getColl (add_documents true k ds s) "master" = some (masterDocs s ++ ds.map (retag k)) := by
  have hbeq : (k == "master") = false := by simp [hk]
  have h1 : add_documents true k ds s
      = appendColl (appendColl s k ds) "master" (ds.map (retag k)) := by
    simp [add_documents, hbeq]
  rw [h1, getColl_appendColl_self, getColl_appendColl_ne _ _ _ _ (Ne.symm hk)]
  rfl

theorem getColl_add_documents_self (b : Bool) (k : String) (ds : List Doc) (s : Index) :
    getColl (add_documents b k ds s) k = some ((getColl s k).getD [] ++ ds) := by
  unfold add_documents
  by_cases h : (b && !(k == "master")) = true
  · have hk : k ≠ "master" := by
      intro he
      subst he
      simp at h
    rw [if_pos h, getColl_appendColl_ne _ _ _ _ hk, getColl_appendColl_self]
  · rw [if_neg h, getColl_appendColl_self]

/-- Claim C1: for every collection key `k` and passage list `P`, the replace
operation (purge then append: `reset_and_add_documents` at the vector-store
level, `process_pdf_replace_collection` at the coordinator level) reports
success, leaves the collection holding exactly `P` (resp. the provenance-
stamped copy of `P`), so describing `k` afterwards reports exactly `len(P)`
passages regardless of what `k` held before, and no previously stored
passage remains observable. -/
theorem c1_replace_then_describe (b : Bool) (k : String) (ds : List Doc) (s : Index)
    (fn ts : List Char) :
    (reset_and_add_documents b k ds s).1 = true ∧
    getColl (reset_and_add_documents b k ds s).2 k = some ds ∧
    describe_size (reset_and_add_documents b k ds s).2 k = ds.length ∧
    describe_size (process_pdf_replace_collection s k b fn ts (some ds)).2 k = ds.length ∧
    getColl (process_pdf_replace_collection s k b fn ts (some ds)).2 k
      = (if ds.isEmpty then none else some (ds.map (stampMeta fn ts k))) := by
  have hreset : (reset_and_add_documents b k ds s)
      = (true, add_documents b k ds (appendColl (deleteColl s k) k [])) := rfl
  have hget : getColl (add_documents b k ds (appendColl (deleteColl s k) k [])) k
      = some ds := by
    rw [getColl_add_documents_self, getColl_appendColl_self, getColl_deleteColl_self]
    simp
  refine ⟨by rw [hreset], by rw [hreset]; exact hget, ?_, ?_, ?_⟩
  · rw [hreset]
    simp only [describe_size, get_document_count, getColl_appendColl_self, hget]
    simp
  · cases hds : ds with
    | nil =>
      have : (process_pdf_replace_collection s k b fn ts (some [])).2 = deleteColl s k := rfl
      simp only [this, describe_size, get_document_count, getColl_appendColl_self,
        getColl_deleteColl_self]
      simp
    | cons d rest =>
      have : (process_pdf_replace_collection s k b fn ts (some (d :: rest))).2
          = add_documents b k ((d :: rest).map (stampMeta fn ts k))
              (appendColl (deleteColl s k) k []) := rfl
      simp only [this, describe_size, get_document_count, getColl_add_documents_self,
        getColl_appendColl_self, getColl_deleteColl_self]
      simp
  · cases hds : ds with
    | nil => simp [process_pdf_replace_collection, getColl_deleteColl_self]
    | cons d rest =>
      have : (process_pdf_replace_collection s k b fn ts (some (d :: rest))).2
          = add_documents b k ((d :: rest).map (stampMeta fn ts k))
              (appendColl (deleteColl s k) k []) := rfl
      simp only [this, getColl_add_documents_self, getColl_appendColl_self,
        getColl_deleteColl_self]
      simp

/-- Claim C3: with aggregate-sync enabled, appending to a non-master
collection also appends re-tagged copies (whose `source_collection`
attribute is the origin key) to `master`; purging a child (by any of the
three deletion paths) leaves `master` untouched, and a replace of a child
only ever appends to `master` — it never removes existing entries. -/
theorem c3_aggregate_sync_additive (k : String) (hk : k ≠ "master") (ds : List Doc)
    (s : Index) (fn ts : List Char) (extracted : Option (List Doc)) :
    getColl (add_documents true k ds s) "master" = some (masterDocs s ++ ds.map (retag k)) ∧
    ((ds.map (retag k)).all
        (fun d => lookupMeta d.metadata "source_collection" == some (s2l k))) = true ∧
    getColl (delete_all_documents k s).2 "master" = getColl s "master" ∧
    getColl (_force_delete_collection k s).2 "master" = getColl s "master" ∧
    getColl (force_delete_collection k s).2 "master" = getColl s "master" ∧
    masterDocs (reset_and_add_documents true k ds s).2 = masterDocs s ++ ds.map (retag k) ∧
    masterDocs (process_pdf_replace_collection s k true fn ts extracted).2
      = masterDocs s ++
        (match extracted with
         | none => []
         | some es =>
             if es.isEmpty then [] else (es.map (stampMeta fn ts k)).map (retag k)) := by
  have hmne : ("master" : String) ≠ k := Ne.symm hk
  have hdel : getColl (deleteColl s k) "master" = getColl s "master" :=
    getColl_deleteColl_ne s k "master" hmne
  have hX : getColl (appendColl (deleteColl s k) k []) "master" = getColl s "master" := by
    rw [getColl_appendColl_ne _ _ _ _ hmne, hdel]
  refine ⟨getColl_master_add_documents_true k ds s hk, ?_, ?_, hdel, ?_, ?_, ?_⟩
  · simp [List.all_eq_true, lookupMeta, retag, List.find?]
  · unfold delete_all_documents
    by_cases h : (getColl s k).isSome
    · rw [if_pos h]
      exact hX
    · rw [if_neg h]
  · show getColl (appendColl (deleteColl s k) k []) "master" = getColl s "master"
    exact hX
  · show masterDocs (add_documents true k ds (appendColl (deleteColl s k) k [])) = _
    rw [masterDocs, getColl_master_add_documents_true k ds _ hk]
    simp only [Option.getD_some, masterDocs, hX]
  · cases extracted with
    | none => simp [process_pdf_replace_collection, masterDocs, hdel]
    | some es =>
      cases es with
      | nil => simp [process_pdf_replace_collection, masterDocs, hdel]
      | cons e rest =>
        have : (process_pdf_replace_collection s k true fn ts (some (e :: rest))).2
            = add_documents true k ((e :: rest).map (stampMeta fn ts k))
                (appendColl (deleteColl s k) k []) := rfl
        rw [this, masterDocs, getColl_master_add_documents_true k _ _ hk]
        simp only [Option.getD_some, masterDocs, hX, List.isEmpty_cons]
        simp

/-- Witness for C3 at a concrete child collection, store state, and passage. -/
theorem c3_witness :
    getColl (add_documents true "child" [⟨s2l "p", []⟩] [("master", [⟨s2l "m", []⟩])])
        "master"
      = some ((masterDocs [("master", [⟨s2l "m", []⟩])]) ++
          [⟨s2l "p", []⟩].map (retag "child")) ∧
    getColl (delete_all_documents "child" [("master", [⟨s2l "m", []⟩])]).2 "master"
      = getColl [("master", [⟨s2l "m", []⟩])] "master" := by
  have h := c3_aggregate_sync_additive "child" (by decide) [⟨s2l "p", []⟩]
    [("master", [⟨s2l "m", []⟩])] (s2l "f") (s2l "t") none
  exact ⟨h.1, h.2.2.1⟩

/-- Claim C4 counterexample: calling the document-level purge
(`delete_all_documents`, the operation behind `RAGSystem.clear_collection`)
on a key that is absent from the index reports failure (`False`), refuting
"returns true whether it was present or already absent". -/
theorem c4_counterexample :
    getColl ([] : Index) "c" = none ∧
    (delete_all_documents "c" ([] : Index)).1 = false := by decide

/-- Claim C4 as amended: the force-delete purge path
(`_force_delete_collection` / `force_delete_collection`) is total and
idempotent — it reports success whether the collection was present or
absent, twice in a row, and leaves the collection recreated empty.  The
document-level `delete_all_documents` instead reports success exactly when
the collection was present (recreating it empty, so a second call also
succeeds), and reports failure (`False`) on an absent collection. -/
theorem c4_amended (k : String) (s : Index) :
    (_force_delete_collection k s).1 = true ∧
    (_force_delete_collection k (_force_delete_collection k s).2).1 = true ∧
    (force_delete_collection k s).1 = true ∧
    (force_delete_collection k (force_delete_collection k s).2).1 = true ∧
    getColl (force_delete_collection k s).2 k = some [] ∧
    (delete_all_documents k s).1 = (getColl s k).isSome ∧
    (delete_all_documents k (delete_all_documents k s).2).1 = (getColl s k).isSome ∧
    getColl (delete_all_documents k s).2 k
      = (if (getColl s k).isSome then some [] else none) := by
  have hsome : getColl (appendColl (deleteColl s k) k []) k = some [] := by
    rw [getColl_appendColl_self, getColl_deleteColl_self]
    rfl
  have hforce : getColl (force_delete_collection k s).2 k = some [] := hsome
  have hstate_pos : (getColl s k).isSome = true →
      delete_all_documents k s = (true, appendColl (deleteColl s k) k []) := by
    intro h
    unfold delete_all_documents
    rw [if_pos h]
  have hstate_neg : (getColl s k).isSome = false →
      delete_all_documents k s = (false, s) := by
    intro h
    unfold delete_all_documents
    rw [if_neg (by simp [h])]
  refine ⟨rfl, rfl, rfl, rfl, hforce, ?_, ?_, ?_⟩
  · cases h : (getColl s k).isSome
    · rw [hstate_neg h]
    · rw [hstate_pos h]
  · cases h : (getColl s k).isSome
    · rw [hstate_neg h, hstate_neg h]
    · rw [hstate_pos h]
      show (delete_all_documents k (appendColl (deleteColl s k) k [])).1 = true
      unfold delete_all_documents
      rw [hsome]
      rfl
  · cases h : (getColl s k).isSome
    · rw [hstate_neg h, if_neg (by simp [h])]
      simpa using h
    · rw [hstate_pos h]
      simpa using hsome

/-- Claim C5 counterexample: a successful extraction whose segmentation
yields zero passages makes `process_pdf_replace_collection` report failure
(`False`, "Warning: No text content extracted"), not a success with passage
count 0 — and the old collection has already been purged and is left
deleted, not recreated; the plain `process_pdf` path also reports failure. -/
theorem c5_counterexample :
    (process_pdf_replace_collection [("c", [⟨s2l "old", []⟩])] "c" false
        (s2l "f.pdf") (s2l "t0") (some [])).1 = false ∧
    (process_pdf_replace_collection [("c", [⟨s2l "old", []⟩])] "c" false
        (s2l "f.pdf") (s2l "t0") (some [])).2 = [] ∧
    (rag_process_pdf [] (some [])).1 = false := by decide

/-- Claim C5 as amended: ingestion reports failure not only when extraction
fails or yields zero pages but also when segmentation produces zero
passages: an empty passage list makes the ingest return `False` and add
nothing; in the replace path the purge (collection deletion) has already
been performed before the emptiness check, so the old content is gone, but
the success/zero-passages report promised by the spec does not happen. -/
theorem c5_amended (s : Index) (k : String) (b : Bool) (fn ts : List Char)
    (ds : List Doc) :
    (process_pdf_replace_collection s k b fn ts none).1 = false ∧
    (process_pdf_replace_collection s k b fn ts (some ds)).1 = !ds.isEmpty ∧
    (process_pdf_replace_collection s k b fn ts (some [])).2 = deleteColl s k ∧
    (rag_process_pdf s none).1 = false ∧
    (rag_process_pdf s (some ds)).1 = !ds.isEmpty ∧
    (rag_process_pdf s (some [])).2 = s := by
  cases ds with
  | nil => exact ⟨rfl, rfl, rfl, rfl, rfl, rfl⟩
  | cons d rest => exact ⟨rfl, rfl, rfl, rfl, rfl, rfl⟩

/-- Claim C10: the aggregate-sync path is guarded against self-sync — an
append with sync disabled, or an append whose primary collection is
`master` itself, performs only the plain primary append (no re-tagged
copies), so appending `ds` to `master` grows it by exactly `ds`. -/
theorem c10_master_self_sync_guard (b : Bool) (k : String) (ds : List Doc) (s : Index) :
    getColl (add_documents b "master" ds s) "master" = some (masterDocs s ++ ds) ∧
    add_documents false k ds s = appendColl s k ds ∧
    add_documents b "master" ds s = appendColl s "master" ds := by
  have hmaster : add_documents b "master" ds s = appendColl s "master" ds := by
    simp [add_documents]
  refine ⟨?_, by simp [add_documents], hmaster⟩
  rw [hmaster, getColl_appendColl_self, masterDocs]

/-! ## `app/enhanced_pdf_processor.py`: document type classifier -/

/-- Academic-paper indicator vocabulary of `_detect_document_type`. -/
def academic_indicators : List (List Char) :=
  ["abstract", "keywords", "introduction", "methodology", "literature review",
   "references", "doi", "journal", "citation", "bibliography", "publication"].map s2l

/-- Legal-document indicator vocabulary. -/
def legal_indicators : List (List Char) :=
  ["agreement", "contract", "terms", "party", "parties", "clause", "section",
   "law", "rights", "herein", "provisions", "pursuant", "legal", "whereas",
   "attorney"].map s2l

/-- Technical-document indicator vocabulary. -/
def technical_indicators : List (List Char) :=
  ["figure", "table", "algorithm", "implementation", "documentation",
   "specification", "api", "interface", "installation", "configuration",
   "code", "function"].map s2l

/-- Presentation indicator vocabulary. -/
def presentation_indicators : List (List Char) :=
  ["slide", "presentation", "agenda"].map s2l

/-- Form indicator vocabulary. -/
def form_indicators : List (List Char) :=
  ["form", "fill", "complete", "signature", "sign", "field", "checkbox"].map s2l

/-- `sum(1 for indicator in inds if indicator in text)`. -/
def indicatorCount (inds : List (List Char)) (text : List Char) : Nat :=
  inds.countP (fun i => containsSub i text)

/-- `EnhancedPDFProcessor._detect_document_type`, over the extracted page
texts: empty page list returns `default` immediately; otherwise the first
`min(3, len(pages))` pages are joined with `" "`, lowercased, and an
ordered decision list of indicator-count thresholds picks the type. -/
def _detect_document_type (pages : List (List Char)) : String :=
  if pages = [] then "default"
  else
    let text := List.intercalate [' '] (pages.take (min 3 pages.length))
    let lower := text.map Char.toLower
    if 2 ≤ indicatorCount academic_indicators lower then "academic"
    else if 3 ≤ indicatorCount legal_indicators lower then "legal"
    else if 2 ≤ indicatorCount technical_indicators lower then "technical"
    else if text.length < 1500 ∧ presentation_indicators.any (fun i => containsSub i lower)
      then "presentation"
    else if 2 ≤ indicatorCount form_indicators lower then "form"
    else "default"

/-- The classifier as the specification words it (claim C2): sample the
first `min(3, len(pages))` pages, scan the lowercased sample, and apply the
ordered decision list — with no special-casing of the empty page list. -/
def classify_spec (pages : List (List Char)) : String :=
  let sample := List.intercalate [' '] (pages.take (min 3 pages.length))
  let scanned := sample.map Char.toLower
  if 2 ≤ indicatorCount academic_indicators scanned then "academic"
  else if 3 ≤ indicatorCount legal_indicators scanned then "legal"
  else if 2 ≤ indicatorCount technical_indicators scanned then "technical"
  else if sample.length < 1500 ∧ presentation_indicators.any (fun i => containsSub i scanned)
    then "presentation"
  else if 2 ≤ indicatorCount form_indicators scanned then "form"
  else "default"

/-- Sanity: two academic indicators classify as academic. -/
theorem detect_academic_example :
    _detect_document_type [s2l "Abstract. Keywords: retrieval"] = "academic" := by decide

/-- Sanity: three legal indicators (and fewer than two academic ones)
classify as legal. -/
theorem detect_legal_example :
    _detect_document_type [s2l "This Agreement between the parties has a clause."]
      = "legal" := by decide

/-- Sanity: a short page containing a presentation indicator classifies as
presentation. -/
theorem detect_presentation_example :
    _detect_document_type [s2l "Slide 1: welcome"] = "presentation" := by decide

/-- Sanity: two form indicators classify as form. -/
theorem detect_form_example :
    _detect_document_type [s2l "Please fill this form."] = "form" := by decide

/-- Sanity: no indicators classify as default. -/
theorem detect_default_example :
    _detect_document_type [s2l "nothing of note here"] = "default" := by decide

/-- Claim C2: `_detect_document_type` implements exactly the ordered
decision list over the first `min(3, len(pages))` pages described by the
spec, and an empty page list yields `default` immediately (agreeing with
what the decision list would also produce on the empty sample). -/
theorem c2_classifier_decision_list (pages : List (List Char)) :
    _detect_document_type pages = classify_spec pages ∧
    _detect_document_type [] = "default" := by
  refine ⟨?_, rfl⟩
  cases pages with
  | nil => decide
  | cons p rest => rfl

/-! ## `app/rag_system.py`: query path (claim C9) -/

/-- The record returned by `RAGSystem.query`. -/
structure QueryResult where
  query : String
  response : List Char
  source_documents : List Doc
deriving DecidableEq, Repr

/-- `VectorStore.similarity_search`: the underlying search collaborator may
fail (`Except.error`); the wrapper catches any failure and returns an empty
list instead of raising. -/
def similarity_search (searchImpl : Except (List Char) (List Doc)) : List Doc :=
  match searchImpl with
  | .ok r => r
  | .error _ => []

/-- `RAGSystem.query`: retrieve (never raises — failures become `[]`), join
the retrieved contents with `"\n\n"` into the context, generate a response;
any exception escaping generation is caught and turned into a record whose
response is `"Error: ..."` and whose source list is empty. -/
def rag_query (searchImpl : Except (List Char) (List Doc))
    (genImpl : String → List Char → Except (List Char) (List Char))
    (q : String) : QueryResult :=
  match genImpl q
      (List.intercalate (s2l "\n\n")
        ((similarity_search searchImpl).map (fun d => d.content))) with
  | .ok resp => ⟨q, resp, similarity_search searchImpl⟩
  | .error e => ⟨q, s2l "Error: " ++ e, []⟩

/-- Claim C9 counterexample: when retrieval fails but generation succeeds,
`query` returns the generated answer with an empty source list — the
response field does not carry the retrieval error text, refuting the claim
that any retrieval failure yields an error-text response. -/
theorem c9_counterexample :
    rag_query (.error (s2l "search backend down"))
        (fun _ _ => .ok (s2l "an answer")) "q"
      = ⟨"q", s2l "an answer", []⟩ ∧
    (rag_query (.error (s2l "search backend down"))
        (fun _ _ => .ok (s2l "an answer")) "q").response
      ≠ s2l "Error: search backend down" := by decide

/-- Claim C9 as amended: `query` never raises; a failure escaping answer
generation yields a record whose response is the error text and whose
source list is empty; a retrieval failure is swallowed by
`similarity_search` returning `[]`, after which `query` proceeds with an
empty context and returns the generated answer (not an error text) with an
empty source list. -/
theorem c9_amended (searchImpl : Except (List Char) (List Doc))
    (genImpl : String → List Char → Except (List Char) (List Char))
    (q : String) (e a : List Char) :
    similarity_search (.error e) = [] ∧
    (genImpl q (List.intercalate (s2l "\n\n")
        ((similarity_search searchImpl).map (fun d => d.content))) = .error e →
      rag_query searchImpl genImpl q = ⟨q, s2l "Error: " ++ e, []⟩) ∧
    (genImpl q [] = .ok a →
      rag_query (.error e) genImpl q = ⟨q, a, []⟩) := by
  refine ⟨rfl, ?_, ?_⟩
  · intro h
    unfold rag_query
    rw [h]
  · intro h
    have h2 : rag_query (Except.error e) genImpl q
        = (match genImpl q [] with
           | .ok resp => ⟨q, resp, []⟩
           | .error e2 => ⟨q, s2l "Error: " ++ e2, []⟩) := rfl
    rw [h2, h]

/-- Witness for C9 at a concrete failing generator and failing retriever. -/
theorem c9_witness :
    rag_query (Except.ok [⟨s2l "ctx", []⟩])
        (fun _ _ => .error (s2l "llm down")) "what"
      = ⟨"what", s2l "Error: llm down", []⟩ ∧
    rag_query (Except.error (s2l "boom"))
        (fun _ _ => .ok (s2l "fine")) "what"
      = ⟨"what", s2l "fine", []⟩ := by
  have h := c9_amended (Except.ok [⟨s2l "ctx", []⟩])
    (fun _ _ => .error (s2l "llm down")) "what" (s2l "llm down") (s2l "fine")
  have h2 := c9_amended (Except.error (s2l "boom"))
    (fun _ _ => .ok (s2l "fine")) "what" (s2l "boom") (s2l "fine")
  exact ⟨h.2.1 rfl, h2.2.2 rfl⟩

/-! ## `app/enhanced_pdf_processor.py`: dispatch and fallback (claim C6)

The segmentation strategies each load the file themselves; here the
successfully extracted page sequence is given, each strategy is an
arbitrary fallible function (`Except` models a raised exception), and the
legacy fallback (`PyPDFLoader` + character splitting, which cannot fail
once extraction succeeds) is character splitting applied to the pages. -/

/-- The strategy table keys of `EnhancedPDFProcessor.DOCUMENT_TYPES`. -/
def DOCUMENT_TYPES : List String :=
  ["default", "academic", "legal", "technical", "presentation", "form"]

/-- `EnhancedPDFProcessor._legacy_process_pdf` with extraction already
done: split every page with the character splitter. -/
def _legacy_process_pdf (csplit : Doc → List Doc) (pages : List Doc) : List Doc :=
  pages.flatMap csplit

/-- Strategy-key resolution of `EnhancedPDFProcessor.process_pdf`: `"auto"`
runs the classifier; a key outside `DOCUMENT_TYPES` falls back to the
`default` processor. -/
def resolveKey (pages : List Doc) (doc_type : String) : String :=
  let t := if doc_type == "auto"
    then _detect_document_type (pages.map (fun p => p.content)) else doc_type
  if DOCUMENT_TYPES.contains t then t else "default"

/-- `EnhancedPDFProcessor.process_pdf`: run the resolved strategy inside a
catch-all; a raised failure hands control to `_legacy_process_pdf`, so the
call always returns a (possibly empty) passage list. -/
def enhanced_process_pdf (strat : String → List Doc → Except (List Char) (List Doc))
    (csplit : Doc → List Doc) (pages : List Doc) (doc_type : String) : List Doc :=
  match strat (resolveKey pages doc_type) pages with
  | .ok ds => ds
  | .error _ => _legacy_process_pdf csplit pages

/-- Claim C6: the dispatcher never propagates a segmentation failure — a
failing strategy hands control to the minimal legacy fallback, a succeeding
strategy's passages are returned as-is (the result is always a plain list,
never an exception), and an unrecognized type hint resolves to the
`default` strategy. -/
theorem c6_dispatch_never_propagates
    (strat : String → List Doc → Except (List Char) (List Doc))
    (csplit : Doc → List Doc) (pages : List Doc) (doc_type : String)
    (e : List Char) (ds : List Doc) :
    (strat (resolveKey pages doc_type) pages = .error e →
      enhanced_process_pdf strat csplit pages doc_type = _legacy_process_pdf csplit pages) ∧
    (strat (resolveKey pages doc_type) pages = .ok ds →
      enhanced_process_pdf strat csplit pages doc_type = ds) ∧
    (DOCUMENT_TYPES.contains doc_type = false → (doc_type == "auto") = false →
      resolveKey pages doc_type = "default") := by
  refine ⟨?_, ?_, ?_⟩
  · intro h
    unfold enhanced_process_pdf
    rw [h]
  · intro h
    unfold enhanced_process_pdf
    rw [h]
  · intro h1 h2
    unfold resolveKey
    rw [h2]
    simp only [Bool.false_eq_true, if_false, h1]

/-- Witness for C6: a strategy that always raises, with an unrecognized
type hint, lands in the legacy fallback. -/
theorem c6_witness :
    enhanced_process_pdf (fun _ _ => .error (s2l "segmentation failure"))
        (fun d => [d]) [⟨s2l "page one", []⟩] "bogus"
      = _legacy_process_pdf (fun d => [d]) [⟨s2l "page one", []⟩] ∧
    resolveKey [⟨s2l "page one", []⟩] "bogus" = "default" := by
  have h := c6_dispatch_never_propagates
    (fun _ _ => .error (s2l "segmentation failure")) (fun d => [d])
    [⟨s2l "page one", []⟩] "bogus" (s2l "segmentation failure") []
  exact ⟨h.1 rfl, h.2.2 (by decide) (by decide)⟩

/-! ## `app/enhanced_pdf_processor.py`: legal strategy (claim C8) -/

/-- The keyword alternatives of the legal section pattern. -/
def legalKeywords : List (List Char) :=
  ["Section", "SECTION", "Article", "ARTICLE"].map s2l

/-- An anchored attempt of `(?:Section|SECTION|Article|ARTICLE)\s+\d...` at
the start of `cs`: a keyword, at least one whitespace, then a digit (the
optional `.\d+` tail never affects whether a match exists). -/
def kwThenNum (cs : List Char) : Bool :=
  legalKeywords.any (fun kw =>
    leadEq kw cs &&
      (let rest := cs.drop kw.length
       let wsr := rest.takeWhile isWSpy
       decide (1 ≤ wsr.length) &&
         (match (rest.drop wsr.length).head? with
          | some d => d.isDigit
          | none => false)))

/-- `re.search(section_pattern, line)`: an anchored attempt at every
position of the line. -/
def searchSectionPat : List Char → Bool
  | [] => false
  | c :: rest => kwThenNum (c :: rest) || searchSectionPat rest

/-- `re.match(r'^(\d+\.\d+)\s+[A-Z]', line)`: digits, a dot, digits, at
least one whitespace, then an ASCII capital letter. -/
def matchNumHeading (cs : List Char) : Bool :=
  let d1 := cs.takeWhile Char.isDigit
  if d1.isEmpty then false
  else
    match cs.drop d1.length with
    | c :: rest2 =>
      if c == '.' then
        let d2 := rest2.takeWhile Char.isDigit
        if d2.isEmpty then false
        else
          let rest3 := rest2.drop d2.length
          let wsr := rest3.takeWhile isWSpy
          if wsr.isEmpty then false
          else
            match (rest3.drop wsr.length).head? with
            | some u => u.isUpper
            | none => false
      else false
    | [] => false

/-- The header test of `process_legal`:
`re.search(section_pattern, line) or re.match(r'^(\d+\.\d+)\s+[A-Z]', line)`. -/
def legalHeader (line : List Char) : Bool :=
  searchSectionPat line || matchNumHeading line

/-- The accumulator of the line loop of `process_legal`:
`documents`, `buffer`, `current_section`. -/
structure LegalAcc where
  docs : List Doc
  buffer : List Char
  current : List Char
deriving DecidableEq, Repr

/-- Metadata of a flushed legal block:
`{"section": current_section, "type": "legal", **page.metadata}` — the page
metadata is written last in the dict literal and so wins on key clashes,
hence it is placed first for first-match lookup. -/
def legalMeta (cur : List Char) (pm : Meta) : Meta :=
  pm ++ [("section", cur), ("type", s2l "legal")]

/-- One iteration of the line loop of `process_legal`, on a stripped line
paired with the metadata of the page it came from. -/
def legalStep (acc : LegalAcc) (e : List Char × Meta) : LegalAcc :=
  if legalHeader e.1 then
    { docs := if (pstrip acc.buffer).isEmpty then acc.docs
              else acc.docs ++ [⟨pstrip acc.buffer, legalMeta acc.current e.2⟩],
      buffer := e.1 ++ [nl],
      current := e.1 }
  else if e.1.isEmpty then acc
  else { acc with buffer := acc.buffer ++ e.1 ++ [nl] }

/-- The stream of stripped lines fed to the loop, each paired with the
metadata of its page (`text.split("\n")`, `line.strip()`). -/
def legalEntries (pages : List Doc) : List (List Char × Meta) :=
  pages.flatMap (fun p => (p.content.splitOn nl).map (fun l => (pstrip l, p.metadata)))

/-- `pages[-1].metadata` (used by the final flush). -/
def lastMeta (pages : List Doc) : Meta :=
  match pages.getLast? with
  | some p => p.metadata
  | none => []

/-- The `documents` list built by `process_legal` before chunking: run the
line loop from `documents = []`, `buffer = ""`,
`current_section = "General"`, then flush the final buffer with the last
page's metadata. -/
def legal_blocks (pages : List Doc) : List Doc :=
  let st := (legalEntries pages).foldl legalStep ⟨[], [], s2l "General"⟩
  if (pstrip st.buffer).isEmpty then st.docs
  else st.docs ++ [⟨pstrip st.buffer, legalMeta st.current (lastMeta pages)⟩]

/-- `EnhancedPDFProcessor.process_legal` after loading: empty page list
returns `[]`; an empty block list falls back to the default strategy
(`defaultResult` stands for what `process_default` would return); otherwise
each block is chunked with the sentence splitter. -/
def process_legal (split : Doc → List Doc) (defaultResult : List Doc)
    (pages : List Doc) : List Doc :=
  if pages.isEmpty then []
  else
    let documents := legal_blocks pages
    if documents.isEmpty then defaultResult
    else documents.flatMap split

/-- The text the loop accumulates in `buffer` across header-free entries:
every nonempty stripped line followed by a newline. -/
def appendLines (b : List Char) (entries : List (List Char × Meta)) : List Char :=
  entries.foldl (fun acc e => if e.1.isEmpty then acc else acc ++ e.1 ++ [nl]) b

theorem foldl_legalStep_no_header : ∀ (entries : List (List Char × Meta))
    (ds : List Doc) (b cur : List Char),
    (∀ e ∈ entries, legalHeader e.1 = false) →
    entries.foldl legalStep ⟨ds, b, cur⟩ = ⟨ds, appendLines b entries, cur⟩
  | [], ds, b, cur, _ => rfl
  | e :: rest, ds, b, cur, h => by
    have he := h e (List.mem_cons_self e rest)
    have hrest : ∀ x ∈ rest, legalHeader x.1 = false :=
      fun x hx => h x (List.mem_cons_of_mem e hx)
    have hstep : legalStep ⟨ds, b, cur⟩ e
        = ⟨ds, if e.1.isEmpty then b else b ++ e.1 ++ [nl], cur⟩ := by
      by_cases hemp : e.1.isEmpty
      · simp [legalStep, he, hemp]
      · simp [legalStep, he, hemp]
    rw [List.foldl_cons, hstep,
      foldl_legalStep_no_header rest ds (if e.1.isEmpty then b else b ++ e.1 ++ [nl]) cur hrest]
    rfl

theorem foldl_legalStep_docs_extends : ∀ (entries : List (List Char × Meta))
    (a : LegalAcc), ∃ t, (entries.foldl legalStep a).docs = a.docs ++ t
  | [], a => ⟨[], by simp⟩
  | e :: rest, a => by
    obtain ⟨t, ht⟩ := foldl_legalStep_docs_extends rest (legalStep a e)
    have hu : ∃ u, (legalStep a e).docs = a.docs ++ u := by
      by_cases hh : legalHeader e.1
      · by_cases hb : (pstrip a.buffer).isEmpty
        · exact ⟨[], by simp [legalStep, hh, hb]⟩
        · exact ⟨[⟨pstrip a.buffer, legalMeta a.current e.2⟩], by simp [legalStep, hh, hb]⟩
      · by_cases hemp : e.1.isEmpty
        · exact ⟨[], by simp [legalStep, hh, hemp]⟩
        · exact ⟨[], by simp [legalStep, hh, hemp]⟩
    obtain ⟨u, hu⟩ := hu
    exact ⟨u ++ t, by rw [List.foldl_cons, ht, hu, List.append_assoc]⟩

/-- Claim C8 counterexample: a non-empty document with zero
Section/Article/numbered-heading matches does NOT fall back to the default
strategy — the entire text becomes a single block tagged `"General"`. -/
theorem c8_counterexample :
    process_legal (fun d => [d]) [⟨s2l "DEFAULT-SENTINEL", []⟩]
        [⟨s2l "hello world", []⟩]
      = [⟨s2l "hello world", [("section", s2l "General"), ("type", s2l "legal")]⟩] ∧
    process_legal (fun d => [d]) [⟨s2l "DEFAULT-SENTINEL", []⟩]
        [⟨s2l "hello world", []⟩]
      ≠ [⟨s2l "DEFAULT-SENTINEL", []⟩] := by decide

/-- Claim C8 as amended: text before the first
Section/Article/numbered-heading match is flushed as the first block,
tagged with section `"General"`; a non-empty document with zero matches
does not fall back to default — its entire nonblank text becomes a single
block tagged `"General"` which is chunked normally; the default fallback
happens only when the document contains no nonblank line at all. -/
theorem c8_amended (split : Doc → List Doc) (defR : List Doc) (pages : List Doc)
    (pre : List (List Char × Meta)) (e : List Char × Meta)
    (rest : List (List Char × Meta)) :
    (legalEntries pages = pre ++ e :: rest →
     (∀ x ∈ pre, legalHeader x.1 = false) →
     legalHeader e.1 = true →
     (pstrip (appendLines [] pre)).isEmpty = false →
     (legal_blocks pages).head?
       = some ⟨pstrip (appendLines [] pre), legalMeta (s2l "General") e.2⟩) ∧
    (pages.isEmpty = false →
     (∀ x ∈ legalEntries pages, legalHeader x.1 = false) →
     (pstrip (appendLines [] (legalEntries pages))).isEmpty = false →
     process_legal split defR pages
       = split ⟨pstrip (appendLines [] (legalEntries pages)),
                legalMeta (s2l "General") (lastMeta pages)⟩) ∧
    (pages.isEmpty = false →
     (∀ x ∈ legalEntries pages, legalHeader x.1 = false) →
     (pstrip (appendLines [] (legalEntries pages))).isEmpty = true →
     process_legal split defR pages = defR) := by
  refine ⟨?_, ?_, ?_⟩
  · intro hsplit hpre hhead hne
    have hfold : (legalEntries pages).foldl legalStep ⟨[], [], s2l "General"⟩
        = (e :: rest).foldl legalStep ⟨[], appendLines [] pre, s2l "General"⟩ := by
      rw [hsplit, List.foldl_append,
        foldl_legalStep_no_header pre [] [] (s2l "General") hpre]
    have hstep : legalStep ⟨[], appendLines [] pre, s2l "General"⟩ e
        = ⟨[⟨pstrip (appendLines [] pre), legalMeta (s2l "General") e.2⟩],
           e.1 ++ [nl], e.1⟩ := by
      simp [legalStep, hhead, hne]
    obtain ⟨t, ht⟩ := foldl_legalStep_docs_extends rest
      ⟨[⟨pstrip (appendLines [] pre), legalMeta (s2l "General") e.2⟩], e.1 ++ [nl], e.1⟩
    unfold legal_blocks
    rw [hfold, List.foldl_cons, hstep]
    by_cases hbuf : (pstrip ((rest.foldl legalStep
        ⟨[⟨pstrip (appendLines [] pre), legalMeta (s2l "General") e.2⟩],
          e.1 ++ [nl], e.1⟩).buffer)).isEmpty
    · rw [if_pos hbuf, ht]
      rfl
    · rw [if_neg hbuf, ht]
      rfl
  · intro hpages hall hne
    have hfold : (legalEntries pages).foldl legalStep ⟨[], [], s2l "General"⟩
        = ⟨[], appendLines [] (legalEntries pages), s2l "General"⟩ :=
      foldl_legalStep_no_header _ [] [] (s2l "General") hall
    unfold process_legal legal_blocks
    rw [hpages, hfold]
    simp only [Bool.false_eq_true, if_false, hne, List.nil_append]
    simp
  · intro hpages hall hempty
    have hfold : (legalEntries pages).foldl legalStep ⟨[], [], s2l "General"⟩
        = ⟨[], appendLines [] (legalEntries pages), s2l "General"⟩ :=
      foldl_legalStep_no_header _ [] [] (s2l "General") hall
    unfold process_legal legal_blocks
    rw [hpages, hfold]
    simp only [hempty, if_true, List.isEmpty_nil]
    simp

/-- Witness for C8 at a concrete legal document: the intro text before
`Section 1` is flushed as a `"General"` block, and a header-free document
becomes a single `"General"` block (no default fallback). -/
theorem c8_witness :
    (legal_blocks [⟨s2l "intro text\nSection 1 Scope\nbody", []⟩]).head?
      = some ⟨pstrip (appendLines [] [(s2l "intro text", [])]),
              legalMeta (s2l "General") []⟩ ∧
    process_legal (fun d => [d]) [⟨s2l "DEF", []⟩] [⟨s2l "plain text", []⟩]
      = (fun (d : Doc) => [d])
          ⟨pstrip (appendLines [] (legalEntries [⟨s2l "plain text", []⟩])),
           legalMeta (s2l "General") (lastMeta [⟨s2l "plain text", []⟩])⟩ := by
  have h1 := c8_amended (fun d => [d]) [⟨s2l "DEF", []⟩]
    [⟨s2l "intro text\nSection 1 Scope\nbody", []⟩]
    [(s2l "intro text", [])] (s2l "Section 1 Scope", []) [(s2l "body", [])]
  have h2 := c8_amended (fun d => [d]) [⟨s2l "DEF", []⟩] [⟨s2l "plain text", []⟩]
    [] (s2l "x", []) []
  refine ⟨?_, ?_⟩
  · exact h1.1 (by decide) (by decide) (by decide) (by decide)
  · exact h2.2.1 (by decide) (by decide) (by decide)

/-! ## `app/enhanced_pdf_processor.py`: technical strategy (claim C7)

`process_technical` splits page text with
`re.split(r'(```[\s\S]*?```|`[^`\n]+`|^[ ]{4,}[^\s].*$)', text, flags=re.MULTILINE)`.
The scanner below models this exactly: it scans left to right; at each
position it tries the three branches in order (lazy fenced block — closing
at the first following triple backtick; inline code — at least one
non-backtick non-newline between backticks, greedy with the only viable
backtrack being none; indented line — only at a line start, four or more
spaces then a non-whitespace character then the rest of the line, `.` not
matching the newline).  `re.split` with the whole pattern in one capture
group returns the interleaving of the (possibly empty) texts between
matches and the matched separators themselves. -/

/-- The triple-backtick fence delimiter. -/
def fenceMark : List Char := s2l "```"

/-- Position of the first occurrence of a triple backtick. -/
def findTriple : List Char → Option Nat
  | [] => none
  | c :: rest =>
    if leadEq fenceMark (c :: rest) then some 0
    else (findTriple rest).map (fun j => j + 1)

/-- Anchored attempt of the lazy fenced-block branch; returns the match
length. -/
def matchFence (cs : List Char) : Option Nat :=
  if leadEq fenceMark cs then (findTriple (cs.drop 3)).map (fun j => j + 6) else none

/-- Anchored attempt of the inline-code branch. -/
def matchInline (cs : List Char) : Option Nat :=
  match cs with
  | c :: rest =>
    if c == btick then
      let run := rest.takeWhile (fun d => !(d == btick) && !(d == nl))
      if decide (1 ≤ run.length) && ((rest.drop run.length).head? == some btick) then
        some (run.length + 2)
      else none
    else none
  | [] => none

/-- Anchored attempt of the indented-line branch (only at a line start). -/
def matchIndent (atLS : Bool) (cs : List Char) : Option Nat :=
  if atLS then
    let sp := cs.takeWhile (fun c => c == ' ')
    if decide (4 ≤ sp.length) then
      match (cs.drop sp.length).head? with
      | some c =>
        if isWSpy c then none
        else some (sp.length + 1 +
          ((cs.drop (sp.length + 1)).takeWhile (fun d => !(d == nl))).length)
      | none => none
    else none
  else none

/-- The alternation, branches tried in pattern order. -/
def matchAlt (atLS : Bool) (cs : List Char) : Option Nat :=
  (matchFence cs).orElse (fun _ => (matchInline cs).orElse (fun _ => matchIndent atLS cs))

/-- Whether any branch matches anywhere (the `has_code` test of
`process_technical`, which `re.search`es each of the three patterns and
stops at the first hit — equivalent to one search of the alternation). -/
def hasMatch (atLS : Bool) : List Char → Bool
  | [] => false
  | c :: rest => (matchAlt atLS (c :: rest)).isSome || hasMatch (c == nl) rest

/-- The `re.split` scan, fuelled for structural recursion (each step
consumes at least one character, so `length + 1` fuel always suffices).
`acc` holds the reversed pending text part; after each separator the next
position is a line start only if the separator ended with a newline. -/
def scanGoF : Nat → Bool → List Char → List Char → List (List Char)
  | 0, _, acc, cs => [acc.reverse ++ cs]
  | _ + 1, _, acc, [] => [acc.reverse]
  | fuel + 1, atLS, acc, c :: rest =>
    match matchAlt atLS (c :: rest) with
    | some n =>
      acc.reverse :: (c :: rest).take n ::
        scanGoF fuel (((c :: rest).take n).getLast? == some nl) [] ((c :: rest).drop n)
    | none => scanGoF fuel (c == nl) (c :: acc) rest

/-- `re.split(code_pattern, text, flags=re.MULTILINE)` with the pattern in
one capture group: texts between matches interleaved with the separators. -/
def reSplit (cs : List Char) : List (List Char) :=
  scanGoF (cs.length + 1) true [] cs

/-- The first loop of `process_technical` over the parts of one page:
skip parts that are empty or whitespace-only, strip the rest, and tag each
with `"code"` when one of the three patterns `re.match`es at its start
(position 0 is a line start for the MULTILINE anchor), else `"text"`.  The
dict literal `{"type": ..., **doc.metadata}` lets the page metadata win on
key clashes, hence it comes first for first-match lookup. -/
def tagParts (doc : Doc) : List Doc :=
  (reSplit doc.content).filterMap (fun part =>
    if part.isEmpty then none
    else if (pstrip part).isEmpty then none
    else some ⟨pstrip part,
      doc.metadata ++
        [("type", if (matchAlt true part).isSome then s2l "code" else s2l "text")]⟩)

/-- The `processed_docs` list of `process_technical`: pages with a code
pattern are split into tagged parts; pages without stay whole, tagged
`"text"`. -/
def techTagged (elements : List Doc) : List Doc :=
  elements.flatMap (fun doc =>
    if hasMatch true doc.content then tagParts doc
    else [⟨doc.content, doc.metadata ++ [("type", s2l "text")]⟩])

def process_technical (split : Doc → List Doc) (defaultResult : List Doc)
    (elements : List Doc) : List Doc :=
  if elements.isEmpty then []
  else if (techTagged elements).isEmpty then defaultResult
  else (techTagged elements).flatMap (fun d =>
    if lookupMeta d.metadata "type" == some (s2l "code") then [d] else split d)

/-- Sanity: the scanner isolates an inline code span. -/
theorem reSplit_inline_example :
    reSplit (s2l "a `x` b") = [s2l "a ", s2l "`x`", s2l " b"] := by decide

/-- Sanity: the scanner isolates a fenced block (lazy: first closing
fence), leaving surrounding prose as separate parts. -/
theorem reSplit_fence_example :
    reSplit (s2l "pre\n```\ncode\n```\npost")
      = [s2l "pre\n", s2l "```\ncode\n```", s2l "\npost"] := by decide

/-- Sanity: an indented line is matched only at a line start and runs to
the end of the line. -/
theorem reSplit_indent_example :
    reSplit (s2l "a\n     x y\nb") = [s2l "a\n", s2l "     x y", s2l "\nb"] := by decide

/-- Sanity: text without any code pattern is one single part. -/
theorem reSplit_plain_example :
    reSplit (s2l "plain prose only") = [s2l "plain prose only"] := by decide

theorem scanGoF_no_match : ∀ (fuel : Nat) (atLS : Bool) (acc cs : List Char),
    cs.length < fuel → hasMatch atLS cs = false →
    scanGoF fuel atLS acc cs = [acc.reverse ++ cs]
  | 0, _, _, cs, hf, _ => absurd hf (Nat.not_lt_zero _)
  | _ + 1, _, acc, [], _, _ => by simp [scanGoF]
  | fuel + 1, atLS, acc, c :: rest, hf, hm => by
    have hm2 : (matchAlt atLS (c :: rest)).isSome = false ∧
        hasMatch (c == nl) rest = false := by
      simpa [hasMatch] using hm
    have hnone : matchAlt atLS (c :: rest) = none :=
      Option.not_isSome_iff_eq_none.mp (by simp [hm2.1])
    have hlen : rest.length < fuel := Nat.lt_of_succ_lt_succ (by simpa using hf)
    simp only [scanGoF, hnone]
    rw [scanGoF_no_match fuel (c == nl) (c :: acc) rest hlen hm2.2]
    simp

theorem leadEq_exists : ∀ {p l : List Char}, leadEq p l = true → ∃ t, l = p ++ t
  | [], l, _ => ⟨l, rfl⟩
  | a :: as, [], h => by simp [leadEq] at h
  | a :: as, b :: bs, h => by
    simp only [leadEq, Bool.and_eq_true, beq_iff_eq] at h
    obtain ⟨t, ht⟩ := leadEq_exists (p := as) (l := bs) h.2
    exact ⟨t, by rw [ht, h.1]; rfl⟩

theorem findTriple_lead : ∀ {cs : List Char} {j : Nat}, findTriple cs = some j →
    leadEq fenceMark (cs.drop j) = true
  | [], _, h => by simp [findTriple] at h
  | c :: rest, j, h => by
    unfold findTriple at h
    by_cases hl : leadEq fenceMark (c :: rest) = true
    · rw [if_pos hl] at h
      injection h with h
      subst h
      simpa using hl
    · rw [if_neg hl] at h
      cases hf : findTriple rest with
      | none =>
        rw [hf] at h
        simp at h
      | some j2 =>
        rw [hf] at h
        simp only [Option.map_some'] at h
        injection h with h
        subst h
        simpa [List.drop_succ_cons] using findTriple_lead hf

theorem matchFence_full {p : List Char} (h : matchFence p = some p.length) :
    p.head? = some btick ∧ p.getLast? = some btick ∧ 6 ≤ p.length := by
  have hfm : fenceMark = [btick, btick, btick] := by decide
  unfold matchFence at h
  by_cases hl : leadEq fenceMark p = true
  · rw [if_pos hl] at h
    cases hf : findTriple (p.drop 3) with
    | none =>
      rw [hf] at h
      simp at h
    | some j =>
      rw [hf] at h
      simp only [Option.map_some'] at h
      injection h with hlen
      obtain ⟨t, ht⟩ := leadEq_exists hl
      have hhead : p.head? = some btick := by
        rw [ht, hfm]
        rfl
      have hdl := findTriple_lead hf
      rw [List.drop_drop] at hdl
      obtain ⟨t2, ht2⟩ := leadEq_exists hdl
      have hlenp : 6 ≤ p.length := by omega
      have hlen2 : (p.drop (3 + j)).length = 3 := by
        simp only [List.length_drop]
        omega
      have ht2e : t2 = [] := by
        have hcl := congrArg List.length ht2
        rw [hlen2] at hcl
        simp only [List.length_append, hfm, List.length_cons, List.length_nil] at hcl
        exact List.length_eq_zero.mp (by omega)
      have hdropfence : p.drop (3 + j) = fenceMark := by
        rw [ht2, ht2e, List.append_nil]
      have hlast : p.getLast? = some btick := by
        conv_lhs => rw [← List.take_append_drop (3 + j) p]
        rw [List.getLast?_append, hdropfence, hfm]
        rfl
      exact ⟨hhead, hlast, hlenp⟩
  · rw [if_neg hl] at h
    simp at h

theorem pstrip_of_ends {l : List Char} {c d : Char} (h1 : l.head? = some c)
    (hc : isWSpy c = false) (h2 : l.getLast? = some d) (hd : isWSpy d = false) :
    pstrip l = l := by
  have hdw : l.dropWhile isWSpy = l := by
    cases l with
    | nil => rfl
    | cons x xs =>
      injection h1 with h1
      rw [List.dropWhile_cons, h1, hc]
      simp
  have hrev : l.reverse.dropWhile isWSpy = l.reverse := by
    cases hr : l.reverse with
    | nil => rfl
    | cons x xs =>
      have hx : l.reverse.head? = some d := by
        rw [List.head?_reverse]
        exact h2
      rw [hr] at hx
      injection hx with hx
      rw [List.dropWhile_cons, hx, hd]
      simp
  unfold pstrip
  rw [hdw, hrev, List.reverse_reverse]

theorem lookupMeta_append_of_none (m : Meta) (key : String) (v : List Char)
    (h : lookupMeta m key = none) :
    lookupMeta (m ++ [(key, v)]) key = some v := by
  unfold lookupMeta at h ⊢
  rw [List.find?_append]
  have hfind : m.find? (fun e => e.1 == key) = none := by
    cases hf : m.find? (fun e => e.1 == key) with
    | none => rfl
    | some e =>
      rw [hf] at h
      simp at h
  rw [hfind]
  simp [List.find?]

/-- Claim C7: under the technical strategy, a part the scanner matched as a
fenced code block is emitted as its own passage, content verbatim (however
long it is — it is never handed to the splitter), tagged `"code"`; a part
with no code-pattern match at its start is tagged `"text"` and everything
the splitter makes of it lands in the output. -/
theorem c7_code_blocks_never_split (split : Doc → List Doc) (defR : List Doc)
    (elements : List Doc) (doc : Doc) (part part2 : List Char)
    (hdoc : doc ∈ elements)
    (hmd : lookupMeta doc.metadata "type" = none)
    (hp : part ∈ reSplit doc.content)
    (hfence : matchFence part = some part.length) :
    (⟨part, doc.metadata ++ [("type", s2l "code")]⟩ : Doc)
      ∈ process_technical split defR elements ∧
    (part2 ∈ reSplit doc.content → matchAlt true part2 = none →
     (pstrip part2).isEmpty = false →
     split ⟨pstrip part2, doc.metadata ++ [("type", s2l "text")]⟩
       ⊆ process_technical split defR elements) := by
  obtain ⟨hhead, hlast, hlen6⟩ := matchFence_full hfence
  have hwsb : isWSpy btick = false := by decide
  have hstrip : pstrip part = part := pstrip_of_ends hhead hwsb hlast hwsb
  have hpne : part.isEmpty = false := by
    cases part
    · simp at hlen6
    · rfl
  have hcodealt : (matchAlt true part).isSome = true := by
    unfold matchAlt
    rw [hfence]
    rfl
  have hhasm : hasMatch true doc.content = true := by
    cases hb : hasMatch true doc.content with
    | true => rfl
    | false =>
      exfalso
      have hsingle : reSplit doc.content = [doc.content] := by
        unfold reSplit
        rw [scanGoF_no_match _ _ _ _ (Nat.lt_succ_self _) hb]
        simp
      rw [hsingle, List.mem_singleton] at hp
      rw [← hp] at hb
      cases part with
      | nil => simp at hpne
      | cons c rest =>
        simp only [hasMatch, Bool.or_eq_false_iff] at hb
        rw [hcodealt] at hb
        exact absurd hb.1 (by simp)
  have helemne : elements.isEmpty = false := by
    cases elements
    · simp at hdoc
    · rfl
  have htag : (⟨part, doc.metadata ++ [("type", s2l "code")]⟩ : Doc) ∈ tagParts doc := by
    apply List.mem_filterMap.mpr
    refine ⟨part, hp, ?_⟩
    simp [hpne, hstrip, hcodealt]
  have hmem : (⟨part, doc.metadata ++ [("type", s2l "code")]⟩ : Doc)
      ∈ techTagged elements := by
    apply List.mem_flatMap.mpr
    refine ⟨doc, hdoc, ?_⟩
    simp only [hhasm, if_true]
    exact htag
  have hne2 : (techTagged elements).isEmpty = false := by
    cases h : techTagged elements
    · rw [h] at hmem
      simp at hmem
    · rfl
  have htype : lookupMeta (doc.metadata ++ [("type", s2l "code")]) "type"
      = some (s2l "code") := lookupMeta_append_of_none _ _ _ hmd
  constructor
  · unfold process_technical
    simp only [helemne, hne2, Bool.false_eq_true, if_false]
    apply List.mem_flatMap.mpr
    refine ⟨⟨part, doc.metadata ++ [("type", s2l "code")]⟩, hmem, ?_⟩
    rw [htype]
    simp
  · intro hp2 hnc hs2
    have hp2ne : part2.isEmpty = false := by
      cases part2
      · simp [pstrip] at hs2
      · rfl
    have htag2 : (⟨pstrip part2, doc.metadata ++ [("type", s2l "text")]⟩ : Doc)
        ∈ tagParts doc := by
      apply List.mem_filterMap.mpr
      refine ⟨part2, hp2, ?_⟩
      simp [hp2ne, hs2, hnc]
    have hmem2 : (⟨pstrip part2, doc.metadata ++ [("type", s2l "text")]⟩ : Doc)
        ∈ techTagged elements := by
      apply List.mem_flatMap.mpr
      refine ⟨doc, hdoc, ?_⟩
      simp only [hhasm, if_true]
      exact htag2
    have htype2 : lookupMeta (doc.metadata ++ [("type", s2l "text")]) "type"
        = some (s2l "text") := lookupMeta_append_of_none _ _ _ hmd
    intro x hx
    unfold process_technical
    simp only [helemne, hne2, Bool.false_eq_true, if_false]
    apply List.mem_flatMap.mpr
    refine ⟨⟨pstrip part2, doc.metadata ++ [("type", s2l "text")]⟩, hmem2, ?_⟩
    rw [htype2]
    have hneq : (some (s2l "text") == some (s2l "code")) = false := by decide
    rw [hneq]
    simpa using hx

/-- Witness for C7 on a concrete page: the fenced block is preserved
verbatim as a code passage and the leading prose is (split and) tagged as
text. -/
theorem c7_witness :
    (⟨s2l "```\nlet x := 1\n```", [("type", s2l "code")]⟩ : Doc)
      ∈ process_technical (fun d => [d]) []
          [⟨s2l "Intro.\n```\nlet x := 1\n```\nDone.", []⟩] ∧
    (⟨pstrip (s2l "Intro.\n"), [("type", s2l "text")]⟩ : Doc)
      ∈ process_technical (fun d => [d]) []
          [⟨s2l "Intro.\n```\nlet x := 1\n```\nDone.", []⟩] := by
  have h := c7_code_blocks_never_split (fun d => [d]) []
    [⟨s2l "Intro.\n```\nlet x := 1\n```\nDone.", []⟩]
    ⟨s2l "Intro.\n```\nlet x := 1\n```\nDone.", []⟩
    (s2l "```\nlet x := 1\n```") (s2l "Intro.\n")
    (by decide) (by decide) (by decide) (by decide)
  refine ⟨h.1, ?_⟩
  exact h.2 (by decide) (by decide) (by decide) (by simp)

end RAG
